import Mathlib

/-!
Verification model of two HotSpot subsystems:

* `MallocSiteTable` (src/hotspot/share/services/mallocSiteTable.cpp) — the
  native-memory-tracking hash table: `lookup_or_add`, `malloc_site`, `walk`,
  `reset`, `delete_linked_list`, and the `AccessLock` shared/exclusive gate.
* `G1BarrierSet` (src/hotspot/share/gc/g1/g1BarrierSet.cpp) — the G1 write
  barriers: `write_ref_field_post_slow`, `invalidate`,
  `write_ref_array_pre_work` / `write_ref_array_pre`, and SATB `enqueue`.

The embedding is sequential: each C++ atomic compare-and-swap is taken on its
success path (the single-thread execution), in-place pointer mutation of a
bucket chain is rendered by replacing the bucket's list with the updated list,
and heap allocation is assumed to succeed (the out-of-memory `NULL` return of
`new_entry` is not modelled; the claims below condition on a successful call).
Machine integers that matter (the `AccessLock` counter) are modelled as `Int`
with an explicit range hypothesis instead of 32-bit wraparound.
-/

/-! ## MallocSiteTable: data model -/

/-- Memory category flags (`MEMFLAGS`), modelled as `Nat`; `mtNone` is the
distinguished "no category" value. -/
def mtNone : Nat := 0

/-- A malloc site, identified by its native call stack (abstracted to a `Nat`
fingerprint, compared by `NativeCallStack::equals`) and its `MEMFLAGS`
category.  The aggregated byte/count statistics play no role in the claims
and are omitted from the record. -/
structure MallocSite where
  key : Nat
  flags : Nat
deriving DecidableEq

/-- The malloc-site hash table.  `table` is the bucket array `_table` (each
bucket is its chain of `MallocSiteHashtableEntry` nodes, head first; the
singly linked `next` pointers become the list structure).  `table_size` and
`max_bucket_length` are the class constants `table_size` and
`MAX_BUCKET_LENGTH` declared in mallocSiteTable.hpp (header not in the
sources; modelled from the spec as abstract positive bounds).  `hash` is
`NativeCallStack::hash`, kept abstract.  `hash_entry_allocation_site` is the
static `_hash_entry_allocation_site` bootstrap entry pointer (`none` = NULL). -/
structure MallocSiteTable where
  table_size : Nat
  max_bucket_length : Nat
  hash : Nat → Nat
  table : Nat → List MallocSite
  hash_entry_allocation_site : Option MallocSite

/-- Modelled from the spec: `hash_to_index` reduces a call-stack hash to a
bucket index, "compute index = hash(stackKey) mod tableSize" (the body lives
in mallocSiteTable.hpp, which is not among the sources). -/
def hash_to_index (t : MallocSiteTable) (h : Nat) : Nat :=
  h % t.table_size

/-- Replacement of one bucket of the table (the functional rendering of an
assignment or CAS on `_table[index]` / on a chain node's `next` pointer). -/
def updateBucket (t : MallocSiteTable) (index : Nat) (chain : List MallocSite) :
    MallocSiteTable :=
  ⟨t.table_size, t.max_bucket_length, t.hash,
    fun j => if j = index then chain else t.table j,
    t.hash_entry_allocation_site⟩

/-- The chain walk of `MallocSiteTable::lookup_or_add` (mallocSiteTable.cpp
lines 138–158), on the success path of every CAS.  `pos` is `*pos_idx`.  The
`while` guard `head != NULL && (*pos_idx) <= MAX_BUCKET_LENGTH` becomes the
two early `(none, _)` exits; a positional match of `(flags, key)` returns the
matching node's data; at the tail (`head->next() == NULL`) with
`pos < MAX_BUCKET_LENGTH` a fresh entry is appended by `atomic_insert` and
`(*pos_idx)++` is returned.  The result pairs the returned site and final
`*pos_idx` (or `none` for the `NULL` return) with the bucket chain as left in
memory. -/
def lookup_chain (key flags maxb : Nat) :
    List MallocSite → Nat → Option (MallocSite × Nat) × List MallocSite
  | [], _ => (none, [])
  | e :: rest, pos =>
    if pos ≤ maxb then
      if e.flags = flags ∧ e.key = key then
        (some (e, pos), e :: rest)
      else if rest = [] ∧ pos < maxb then
        (some (⟨key, flags⟩, pos + 1), e :: [⟨key, flags⟩])
      else
        let r := lookup_chain key flags maxb rest (pos + 1)
        (r.1, e :: r.2)
    else
      (none, e :: rest)

/-- `MallocSiteTable::lookup_or_add` (mallocSiteTable.cpp lines 117–160) on
the success path of every CAS: an empty bucket gets the freshly built entry
installed at its head (`Atomic::replace_if_null`), with `*bucket_idx = index`
and `*pos_idx = 0`; otherwise the chain walk `lookup_chain` runs from the
head.  The result pairs the returned site together with the two out
parameters `(*bucket_idx, *pos_idx)` (or `none` for the `NULL` return) with
the updated table. -/
def lookup_or_add (t : MallocSiteTable) (key flags : Nat) :
    Option (MallocSite × Nat × Nat) × MallocSiteTable :=
  let index := hash_to_index t (t.hash key)
  if t.table index = [] then
    (some (⟨key, flags⟩, index, 0), updateBucket t index [⟨key, flags⟩])
  else
    match lookup_chain key flags t.max_bucket_length (t.table index) 0 with
    | (some (site, pos), chain2) => (some (site, index, pos), updateBucket t index chain2)
    | (none, chain2) => (none, updateBucket t index chain2)

/-- The chain walk of `MallocSiteTable::malloc_site` (mallocSiteTable.cpp
lines 163–171): advance `pos_idx` links from the bucket head and return that
node's data; `none` models the `assert(head != NULL)` failure case. -/
def chainAt : List MallocSite → Nat → Option MallocSite
  | [], _ => none
  | e :: _, 0 => some e
  | _ :: rest, pos + 1 => chainAt rest pos

/-- `MallocSiteTable::malloc_site` (mallocSiteTable.cpp lines 163–171). -/
def malloc_site (t : MallocSiteTable) (bucket_idx pos_idx : Nat) :
    Option MallocSite :=
  chainAt (t.table bucket_idx) pos_idx

/-- One bucket chain of `MallocSiteTable::walk` (mallocSiteTable.cpp lines
96–101): call the walker on each node's data in chain order, stopping at the
first `false`.  The instrumented result pairs the C++ `bool` return with the
list of sites actually visited (the arguments of the `do_malloc_site` calls,
in order). -/
def walkChain (w : MallocSite → Bool) : List MallocSite → Bool × List MallocSite
  | [] => (true, [])
  | e :: rest =>
    if w e then
      let r := walkChain w rest
      (r.1, e :: r.2)
    else
      (false, [e])

/-- The bucket loop of `MallocSiteTable::walk` over a list of bucket
indices. -/
def walkFrom (t : MallocSiteTable) (w : MallocSite → Bool) :
    List Nat → Bool × List MallocSite
  | [] => (true, [])
  | i :: rest =>
    match walkChain w (t.table i) with
    | (true, vs) =>
      let r := walkFrom t w rest
      (r.1, vs ++ r.2)
    | (false, vs) => (false, vs)

/-- `MallocSiteTable::walk` (mallocSiteTable.cpp lines 92–104): buckets in
ascending index order `0 .. table_size - 1`, chain order within a bucket. -/
def walk (t : MallocSiteTable) (w : MallocSite → Bool) : Bool × List MallocSite :=
  walkFrom t w (List.range t.table_size)

/-- `MallocSiteTable::delete_linked_list` (mallocSiteTable.cpp lines
193–202): walk the chain and `delete` every node other than the bootstrap
`hash_entry_allocation_site()`.  The result is the list of freed nodes in
deletion order (node identity is the node's value; entries built by
`lookup_or_add` never alias the static bootstrap entry). -/
def delete_linked_list (boot : Option MallocSite) :
    List MallocSite → List MallocSite
  | [] => []
  | p :: rest =>
    if some p = boot then delete_linked_list boot rest
    else p :: delete_linked_list boot rest

/-- The bucket loop of `MallocSiteTable::reset` over a list of bucket
indices, accumulating the nodes freed by `delete_linked_list`. -/
def resetFreed (t : MallocSiteTable) : List Nat → List MallocSite
  | [] => []
  | i :: rest => delete_linked_list t.hash_entry_allocation_site (t.table i) ++ resetFreed t rest

/-- `MallocSiteTable::reset` (mallocSiteTable.cpp lines 182–191): every
bucket `0 .. table_size - 1` is taken down (`_table[index] = NULL`) and its
chain passed to `delete_linked_list`; finally the static bootstrap pointers
are cleared (`_hash_entry_allocation_site = NULL`; the companion
`_hash_entry_allocation_stack` has no other observable role here).  The
result pairs the post-reset table with the list of freed nodes. -/
def reset (t : MallocSiteTable) : MallocSiteTable × List MallocSite :=
  (⟨t.table_size, t.max_bucket_length, t.hash,
      fun j => if j < t.table_size then [] else t.table j,
      none⟩,
    resetFreed t (List.range t.table_size))

/-! ## MallocSiteTable: the AccessLock counter -/

/-- The `AccessLock` magic constant `_MAGIC_ = min_jint` (declared in
mallocSiteTable.hpp; modelled from the spec: "a large negative magic
offset"). -/
def accessLockMagic : Int := -2147483648

/-- Modelled from the spec: `sharedLock()` (body in mallocSiteTable.hpp) is a
lock-free increment of the access counter that succeeds only while the
counter is non-negative (no exclusive holder pending); on observing a
negative counter it fails without blocking.  Returns the new counter and the
success flag. -/
def sharedLock (c : Int) : Int × Bool :=
  if 0 ≤ c then (c + 1, true) else (c, false)

/-- Modelled from the spec: releasing a shared lock decrements the counter
(the `AccessLock` destructor in mallocSiteTable.hpp). -/
def sharedUnlock (c : Int) : Int := c - 1

/-- The CAS loop of `MallocSiteTable::AccessLock::exclusiveLock`
(mallocSiteTable.cpp lines 229–232) on its success path: the counter is
atomically replaced by `_MAGIC_ + *_lock`, blocking out further shared
locks. -/
def exclusiveLockIntent (c : Int) : Int := accessLockMagic + c

/-- The spin-exit condition of `MallocSiteTable::AccessLock::exclusiveLock`
(mallocSiteTable.cpp line 235): the busy-wait `while (*_lock != _MAGIC_)`
terminates exactly when the counter reads the magic constant. -/
def exclusiveLockSpinDone (c : Int) : Bool := c = accessLockMagic

/-- `k` successive `sharedLock` acquisitions, threading the counter and
conjoining the success flags. -/
def acquireK (c : Int) : Nat → Int × Bool
  | 0 => (c, true)
  | k + 1 =>
    let r := sharedLock c
    let r2 := acquireK r.1 k
    (r2.1, r.2 && r2.2)

/-- `k` successive `sharedUnlock` releases. -/
def releaseK (c : Int) : Nat → Int
  | 0 => c
  | k + 1 => releaseK (sharedUnlock c) k

/-! ## G1BarrierSet: data model -/

/-- `G1CardTable::dirty_card_val()` — modelled from the spec (the card-table
headers are not among the sources): the three card states referenced by the
barrier code are pairwise distinct byte values. -/
def dirty_card_val : Nat := 0

/-- `G1CardTable::g1_young_card_val()` — modelled from the spec. -/
def g1_young_card_val : Nat := 1

/-- `CardTable::clean_card_val()` — modelled from the spec. -/
def clean_card_val : Nat := 255

/-- The barrier-visible state: the card table (one card per address unit of
the `Nat` address space, so `byte_for` is the identity and a card's address
is its index), the current thread's dirty card queue `dcq` (in enqueue
order), the global `_satb_mark_queue_set.is_active()` flag, and the current
thread's SATB mark queue `satbq` (enqueued oop values, non-null by the
callers' contract). -/
structure G1State where
  ct : Nat → Nat
  dcq : List Nat
  satb_active : Bool
  satbq : List Nat

/-- A heap memory region (`MemRegion`, modelled from the spec): start address
and word size; `is_empty()` is `word_size = 0` and `last()` is
`start + word_size - 1`.  Its covering cards are
`List.range' start word_size` (one card per address unit). -/
structure MemRegion where
  start : Nat
  word_size : Nat

/-- `G1BarrierSet::enqueue` (g1BarrierSet.cpp lines 65–69): append the
pre-write value to the current thread's SATB mark queue (the null filter and
`is_oop` assertion are the caller's contract; the queue-internal inactive
filter of `SATBMarkQueue::enqueue` is not among the sources and the callers
modelled here test the set-level active flag first). -/
def enqueue (s : G1State) (pre_val : Nat) : G1State :=
  ⟨s.ct, s.dcq, s.satb_active, s.satbq ++ [pre_val]⟩

/-- The slot loop of `G1BarrierSet::write_ref_array_pre_work`
(g1BarrierSet.cpp lines 74–80): each slot's existing value is loaded in
ascending slot order and, when non-null, forwarded to `enqueue`.  A slot
holds `none` for a null reference. -/
def preWorkLoop (s : G1State) : List (Option Nat) → G1State
  | [] => s
  | none :: rest => preWorkLoop s rest
  | some v :: rest => preWorkLoop (enqueue s v) rest

/-- `G1BarrierSet::write_ref_array_pre_work` (g1BarrierSet.cpp lines 71–81):
return immediately unless the SATB queue set is active, else run the slot
loop over the destination's `count` existing slot values. -/
def write_ref_array_pre_work (s : G1State) (slots : List (Option Nat)) : G1State :=
  if s.satb_active = false then s else preWorkLoop s slots

/-- `G1BarrierSet::write_ref_array_pre` (g1BarrierSet.cpp lines 83–93, both
overloads): delegate to `write_ref_array_pre_work` unless the destination is
flagged uninitialized. -/
def write_ref_array_pre (s : G1State) (slots : List (Option Nat))
    (dest_uninitialized : Bool) : G1State :=
  if ¬dest_uninitialized then write_ref_array_pre_work s slots else s

/-- `G1BarrierSet::write_ref_field_post_slow` (g1BarrierSet.cpp lines
95–104): the caller guarantees the card is not young (debug assertion); after
the store-load fence, if the card is not already dirty it is set dirty and
its address enqueued on the current thread's dirty card queue. -/
def write_ref_field_post_slow (s : G1State) (byte : Nat) : G1State :=
  if s.ct byte ≠ dirty_card_val then
    ⟨fun j => if j = byte then dirty_card_val else s.ct j,
      s.dcq ++ [byte], s.satb_active, s.satbq⟩
  else s

/-- The initial-young skip of `G1BarrierSet::invalidate` (g1BarrierSet.cpp
line 113): advance the card cursor past the leading cards already in the
young state.  The card range is carried as the list of remaining card
addresses. -/
def skipYoung (ct : Nat → Nat) : List Nat → List Nat
  | [] => []
  | c :: rest => if ct c = g1_young_card_val then skipYoung ct rest else c :: rest

/-- The dirtying loop of `G1BarrierSet::invalidate` (g1BarrierSet.cpp lines
120–127): each remaining card whose value is neither young nor dirty is set
dirty and enqueued on the current thread's dirty card queue. -/
def invLoop (s : G1State) : List Nat → G1State
  | [] => s
  | c :: rest =>
    if s.ct c ≠ g1_young_card_val ∧ s.ct c ≠ dirty_card_val then
      invLoop ⟨fun j => if j = c then dirty_card_val else s.ct j,
        s.dcq ++ [c], s.satb_active, s.satbq⟩ rest
    else invLoop s rest

/-- `G1BarrierSet::invalidate` (g1BarrierSet.cpp lines 106–129): an empty
region returns at once; otherwise the cards from `byte_for(mr.start())` to
`byte_for(mr.last())` are walked, leading young cards are skipped, and the
dirtying loop runs over the rest (the `byte <= last_byte` re-check and the
store-load fence have no state effect in the model). -/
def invalidate (s : G1State) (mr : MemRegion) : G1State :=
  if mr.word_size = 0 then s
  else invLoop s (skipYoung s.ct (List.range' mr.start mr.word_size))

/-- The cards of a card list that the dirtying loop will dirty and enqueue:
those whose current value is neither young nor dirty. -/
def dirtyTargets (ct : Nat → Nat) : List Nat → List Nat
  | [] => []
  | c :: rest =>
    if ct c ≠ g1_young_card_val ∧ ct c ≠ dirty_card_val then
      c :: dirtyTargets ct rest
    else dirtyTargets ct rest

/-! ## MallocSiteTable: chain-walk lemmas -/

/-- The positional match test of the chain walk holds exactly for the entry
recording the queried `(key, flags)` pair. -/
theorem mallocSite_match_iff (e : MallocSite) (key flags : Nat) :
    (e.flags = flags ∧ e.key = key) ↔ e = (⟨key, flags⟩ : MallocSite) := by
  cases e
  constructor
  · rintro ⟨h1, h2⟩
    simp_all
  · intro h
    injection h with h1 h2
    exact ⟨h2, h1⟩

/-- A chain whose entry at position `c1.length` is the first one matching
`(key, flags)` is found there by the chain walk, provided the guard allows
reaching that position; the chain is left unchanged. -/
theorem lookup_chain_found (key flags maxb : Nat) :
    ∀ (c1 : List MallocSite) (c2 : List MallocSite) (pos : Nat),
      (∀ x ∈ c1, x ≠ (⟨key, flags⟩ : MallocSite)) →
      pos + c1.length ≤ maxb →
      lookup_chain key flags maxb (c1 ++ ⟨key, flags⟩ :: c2) pos =
        (some (⟨key, flags⟩, pos + c1.length), c1 ++ ⟨key, flags⟩ :: c2) := by
  intro c1
  induction c1 with
  | nil =>
    intro c2 pos _ hle
    have hle2 : pos ≤ maxb := by simpa using hle
    simp [lookup_chain, hle2]
  | cons a c1t ih =>
    intro c2 pos hnm hle
    have ha : a ≠ (⟨key, flags⟩ : MallocSite) := hnm a (by simp)
    have hmatch : ¬(a.flags = flags ∧ a.key = key) := by
      rw [mallocSite_match_iff]
      exact ha
    simp only [List.length_cons] at hle ⊢
    simp only [List.cons_append, lookup_chain, List.append_eq]
    rw [if_pos (show pos ≤ maxb by omega), if_neg hmatch]
    rw [if_neg (by simp)]
    rw [ih c2 (pos + 1) (fun x hx => hnm x (by simp [hx])) (by omega)]
    simp only [Prod.mk.injEq, Option.some.injEq, List.cons_append, eq_self_iff_true,
      and_true, true_and]
    omega

/-- A non-empty chain with no matching entry, whose tail position
`pos + length - 1` is still below `MAX_BUCKET_LENGTH`, gets the new entry
appended at its tail, with final `*pos_idx = pos + length`. -/
theorem lookup_chain_append (key flags maxb : Nat) :
    ∀ (c : List MallocSite) (pos : Nat),
      c ≠ [] →
      (∀ x ∈ c, x ≠ (⟨key, flags⟩ : MallocSite)) →
      pos + c.length ≤ maxb →
      lookup_chain key flags maxb c pos =
        (some (⟨key, flags⟩, pos + c.length), c ++ [⟨key, flags⟩]) := by
  intro c
  induction c with
  | nil => intro pos h; exact absurd rfl h
  | cons a ct ih =>
    intro pos _ hnm hle
    have ha : a ≠ (⟨key, flags⟩ : MallocSite) := hnm a (by simp)
    have hmatch : ¬(a.flags = flags ∧ a.key = key) := by
      rw [mallocSite_match_iff]
      exact ha
    simp only [List.length_cons] at hle ⊢
    simp only [lookup_chain, List.append_eq]
    rw [if_pos (show pos ≤ maxb by omega), if_neg hmatch]
    by_cases hct : ct = []
    · subst hct
      simp only [List.length_nil] at hle ⊢
      rw [if_pos (by exact ⟨by simp, by omega⟩)]
      simp
    · rw [if_neg (by simp [hct])]
      rw [ih (pos + 1) hct (fun x hx => hnm x (by simp [hx])) (by omega)]
      simp only [Prod.mk.injEq, Option.some.injEq, List.cons_append, eq_self_iff_true,
        and_true, true_and]
      omega

/-- A chain with no matching entry whose tail position already reaches
`MAX_BUCKET_LENGTH` is walked to its end (or to the guard) and the walk
returns the `NULL` sentinel, leaving the chain unchanged. -/
theorem lookup_chain_overflow (key flags maxb : Nat) :
    ∀ (c : List MallocSite) (pos : Nat),
      (∀ x ∈ c, x ≠ (⟨key, flags⟩ : MallocSite)) →
      maxb + 1 ≤ pos + c.length →
      lookup_chain key flags maxb c pos = (none, c) := by
  intro c
  induction c with
  | nil => intro pos _ _; rfl
  | cons a ct ih =>
    intro pos hnm hge
    have ha : a ≠ (⟨key, flags⟩ : MallocSite) := hnm a (by simp)
    have hmatch : ¬(a.flags = flags ∧ a.key = key) := by
      rw [mallocSite_match_iff]
      exact ha
    simp only [List.length_cons] at hge
    simp only [lookup_chain, List.append_eq]
    by_cases hpos : pos ≤ maxb
    · rw [if_pos hpos, if_neg hmatch]
      by_cases hct : ct = []
      · subst hct
        simp only [List.length_nil] at hge
        rw [if_neg (by rintro ⟨-, hlt⟩; omega)]
        rw [ih (pos + 1) (by simp) (by simp only [List.length_nil]; omega)]
      · rw [if_neg (by simp [hct])]
        rw [ih (pos + 1) (fun x hx => hnm x (by simp [hx])) (by omega)]
    · rw [if_neg hpos]

/-- Inversion of a successful chain walk: whatever site it returns is the one
recording `(key, flags)`, the final position is within the bucket bound, and
the chain it leaves behind holds that site at exactly that position (counted
from the walk's starting position), with no earlier match. -/
theorem lookup_chain_some_inv (key flags maxb : Nat) :
    ∀ (c : List MallocSite) (pos : Nat) (e : MallocSite) (k : Nat)
      (c2 : List MallocSite),
      lookup_chain key flags maxb c pos = (some (e, k), c2) →
      e = (⟨key, flags⟩ : MallocSite) ∧ k ≤ maxb ∧
        ∃ c1 cr, c2 = c1 ++ e :: cr ∧
          (∀ x ∈ c1, x ≠ (⟨key, flags⟩ : MallocSite)) ∧ pos + c1.length = k := by
  intro c
  induction c with
  | nil =>
    intro pos e k c2 h
    exact absurd h (by simp [lookup_chain])
  | cons a ct ih =>
    intro pos e k c2 h
    simp only [lookup_chain] at h
    by_cases hpos : pos ≤ maxb
    · rw [if_pos hpos] at h
      by_cases hm : a.flags = flags ∧ a.key = key
      · rw [if_pos hm] at h
        simp only [Prod.mk.injEq, Option.some.injEq] at h
        obtain ⟨⟨he, hk⟩, hc2⟩ := h
        have ha : a = (⟨key, flags⟩ : MallocSite) := (mallocSite_match_iff a key flags).mp hm
        subst he
        subst hk
        subst hc2
        exact ⟨ha, hpos, [], ct, by simp [ha], by simp, by simp⟩
      · rw [if_neg hm] at h
        have ha : a ≠ (⟨key, flags⟩ : MallocSite) := by
          intro hc
          exact hm ((mallocSite_match_iff a key flags).mpr hc)
        by_cases hins : ct = [] ∧ pos < maxb
        · rw [if_pos hins] at h
          simp only [Prod.mk.injEq, Option.some.injEq] at h
          obtain ⟨⟨he, hk⟩, hc2⟩ := h
          subst he
          subst hk
          subst hc2
          exact ⟨rfl, by omega, [a], [], rfl, by simpa using ha, by simp⟩
        · rw [if_neg hins] at h
          simp only [Prod.mk.injEq] at h
          obtain ⟨h1, hc2⟩ := h
          obtain ⟨he, hk, c1, cr, hsh, hnm, hlen⟩ :=
            ih (pos + 1) e k (lookup_chain key flags maxb ct (pos + 1)).2
              (by rw [← h1])
          refine ⟨he, hk, a :: c1, cr, ?_, ?_, ?_⟩
          · rw [← hc2, hsh]
            rfl
          · intro x hx
            rcases List.mem_cons.mp hx with hx | hx
            · rw [hx]; exact ha
            · exact hnm x hx
          · simp only [List.length_cons]
            omega
    · rw [if_neg hpos] at h
      simp at h

/-- Replacing a bucket by its own current chain is the identity. -/
theorem updateBucket_self (t : MallocSiteTable) (i : Nat) :
    updateBucket t i (t.table i) = t := by
  cases t
  simp only [updateBucket, MallocSiteTable.mk.injEq, true_and, and_true]
  funext j
  by_cases hj : j = i
  · rw [if_pos hj, hj]
  · rw [if_neg hj]

/-- Postcondition of a successful `lookup_or_add`: the returned site records
the queried pair, the out parameters name the hashed bucket and a position
within the bucket bound, the resulting table holds the site at that position
of that bucket with no earlier match in the chain, every other bucket and
every scalar field of the table is untouched. -/
theorem lookup_or_add_success (t : MallocSiteTable) (key flags : Nat)
    (e : MallocSite) (b p : Nat) (t2 : MallocSiteTable)
    (h : lookup_or_add t key flags = (some (e, b, p), t2)) :
    e = (⟨key, flags⟩ : MallocSite) ∧ b = hash_to_index t (t.hash key) ∧
      p ≤ t.max_bucket_length ∧
      (∃ c1 cr, t2.table b = c1 ++ e :: cr ∧
        (∀ x ∈ c1, x ≠ (⟨key, flags⟩ : MallocSite)) ∧ c1.length = p) ∧
      (∀ j, j ≠ b → t2.table j = t.table j) ∧
      t2.table_size = t.table_size ∧ t2.max_bucket_length = t.max_bucket_length ∧
      t2.hash = t.hash ∧
      t2.hash_entry_allocation_site = t.hash_entry_allocation_site := by
  simp only [lookup_or_add] at h
  by_cases hemp : t.table (hash_to_index t (t.hash key)) = []
  · rw [if_pos hemp] at h
    simp only [Prod.mk.injEq, Option.some.injEq] at h
    obtain ⟨⟨he, hb, hp⟩, ht2⟩ := h
    subst he
    subst hb
    subst hp
    subst ht2
    refine ⟨rfl, rfl, Nat.zero_le _, ⟨[], [], ?_, by simp, rfl⟩, ?_, rfl, rfl, rfl, rfl⟩
    · simp [updateBucket]
    · intro j hj
      simp [updateBucket, hj]
  · rw [if_neg hemp] at h
    rcases hchain : lookup_chain key flags t.max_bucket_length
        (t.table (hash_to_index t (t.hash key))) 0 with ⟨r1, chain2⟩
    rw [hchain] at h
    cases r1 with
    | none => simp at h
    | some v =>
      rcases v with ⟨site, pos⟩
      simp only [Prod.mk.injEq, Option.some.injEq] at h
      obtain ⟨⟨he, hb, hp⟩, ht2⟩ := h
      subst he
      subst hb
      subst hp
      subst ht2
      obtain ⟨he, hk, c1, cr, hsh, hnm, hlen⟩ :=
        lookup_chain_some_inv key flags t.max_bucket_length
          (t.table (hash_to_index t (t.hash key))) 0 site pos chain2 hchain
      refine ⟨he, rfl, hk, ⟨c1, cr, ?_, hnm, by omega⟩, ?_, rfl, rfl, rfl, rfl⟩
      · simpa [updateBucket] using hsh
      · intro j hj
        simp [updateBucket, hj]

/-- C1: for every call-stack key and memory-category flag (flag not
`mtNone`), repeated calls to `MallocSiteTable::lookup_or_add` with the same
`(key, flags)` pair create exactly one `MallocSite`: once a call has
succeeded, returning the site with out parameters `(b, p)` and leaving table
`t2`, every later call with the same pair returns that very site with the
same out parameters and leaves the table exactly as it was — no further
entry is ever created. -/
theorem lookup_or_add_idempotent (t : MallocSiteTable) (key flags : Nat)
    (e : MallocSite) (b p : Nat) (t2 : MallocSiteTable)
    (hf : flags ≠ mtNone)
    (h : lookup_or_add t key flags = (some (e, b, p), t2)) :
    lookup_or_add t2 key flags = (some (e, b, p), t2) := by
  obtain ⟨he, hb, hp, ⟨c1, cr, hsh, hnm, hlen⟩, hrest, hts, hmb, hh, -⟩ :=
    lookup_or_add_success t key flags e b p t2 h
  have hidx : hash_to_index t2 (t2.hash key) = b := by
    unfold hash_to_index
    rw [hh, hts, hb]
    rfl
  have hne : t2.table b ≠ [] := by
    rw [hsh]
    intro hc
    rcases List.append_eq_nil.mp hc with ⟨-, hc2⟩
    exact List.cons_ne_nil _ _ hc2
  have hfound :
      lookup_chain key flags t2.max_bucket_length (t2.table b) 0 =
        (some (⟨key, flags⟩, p), t2.table b) := by
    rw [hsh, he]
    have := lookup_chain_found key flags t2.max_bucket_length c1 cr 0 hnm
      (by rw [hmb]; omega)
    rw [this]
    rw [← he]
    simp [hlen]
  simp only [lookup_or_add, hidx]
  rw [if_neg hne, hfound, he]
  show (some ((⟨key, flags⟩ : MallocSite), b, p), updateBucket t2 b (t2.table b)) =
    (some ((⟨key, flags⟩ : MallocSite), b, p), t2)
  rw [updateBucket_self]

/-- C2 (amended): a bucket whose chain already holds
`MAX_BUCKET_LENGTH + 1` entries, none of which matches the queried
`(key, flags)`, makes `lookup_or_add` return the null sentinel and leaves
every bucket of the table — in particular every existing entry and chain
link — unchanged. -/
theorem lookup_or_add_overflow (t : MallocSiteTable) (key flags : Nat)
    (hlen : (t.table (hash_to_index t (t.hash key))).length =
      t.max_bucket_length + 1)
    (hnm : ∀ x ∈ t.table (hash_to_index t (t.hash key)),
      x ≠ (⟨key, flags⟩ : MallocSite)) :
    (lookup_or_add t key flags).1 = none ∧
      ∀ j, (lookup_or_add t key flags).2.table j = t.table j := by
  have hne : t.table (hash_to_index t (t.hash key)) ≠ [] := by
    intro hc
    rw [hc] at hlen
    simp at hlen
  have hov :
      lookup_chain key flags t.max_bucket_length
        (t.table (hash_to_index t (t.hash key))) 0 =
        (none, t.table (hash_to_index t (t.hash key))) :=
    lookup_chain_overflow key flags t.max_bucket_length _ 0 hnm (by omega)
  simp only [lookup_or_add]
  rw [if_neg hne, hov]
  refine ⟨rfl, ?_⟩
  intro j
  by_cases hj : j = hash_to_index t (t.hash key)
  · simp [updateBucket, hj]
  · simp [updateBucket, hj]

/-- The chain walk of `malloc_site` reads off the entry sitting at the given
position. -/
theorem chainAt_append_length :
    ∀ (c1 : List MallocSite) (x : MallocSite) (cr : List MallocSite),
      chainAt (c1 ++ x :: cr) c1.length = some x := by
  intro c1
  induction c1 with
  | nil => intro x cr; rfl
  | cons a ct ih => intro x cr; exact ih x cr

/-- C10: whenever `lookup_or_add` returns a site and writes bucket index `b`
and position index `p` through its out parameters, `malloc_site b p` on the
resulting (unmodified) table walks back to exactly that site: the out
parameters are a valid round-trip handle. -/
theorem lookup_or_add_malloc_site_roundtrip (t : MallocSiteTable)
    (key flags : Nat) (e : MallocSite) (b p : Nat) (t2 : MallocSiteTable)
    (h : lookup_or_add t key flags = (some (e, b, p), t2)) :
    malloc_site t2 b p = some e := by
  obtain ⟨-, -, -, ⟨c1, cr, hsh, -, hlen⟩, -⟩ :=
    lookup_or_add_success t key flags e b p t2 h
  unfold malloc_site
  rw [hsh, ← hlen]
  exact chainAt_append_length c1 e cr

/-! ## MallocSiteTable: reset and walk -/

/-- A walk over bucket indices whose buckets are all empty visits nothing and
returns `true`. -/
theorem walkFrom_all_empty (t : MallocSiteTable) (w : MallocSite → Bool) :
    ∀ l : List Nat, (∀ i ∈ l, t.table i = []) → walkFrom t w l = (true, []) := by
  intro l
  induction l with
  | nil => intro _; rfl
  | cons i rest ih =>
    intro hemp
    have hi : t.table i = [] := hemp i (by simp)
    simp only [walkFrom, hi]
    rw [ih (fun j hj => hemp j (by simp [hj]))]
    rfl

/-- C4: after `MallocSiteTable::reset()` completes (run under exclusive
access, which the sequential model renders directly), every bucket of the
table is empty and a subsequent `MallocSiteTable::walk` visits exactly zero
entries, with any walker — in particular the pre-registered bootstrap entry
is no longer reachable from any bucket. -/
theorem reset_empties_table (t : MallocSiteTable) :
    (∀ i < t.table_size, (reset t).1.table i = []) ∧
      ∀ w : MallocSite → Bool, walk (reset t).1 w = (true, []) := by
  constructor
  · intro i hi
    simp [reset, hi]
  · intro w
    unfold walk
    apply walkFrom_all_empty
    intro i hi
    have : i < t.table_size := by
      simpa [reset] using List.mem_range.mp hi
    simp [reset, this]

/-- Membership in the freed-node list of `delete_linked_list`: a node is
freed exactly when it is on the chain and is not the bootstrap entry. -/
theorem delete_linked_list_mem (boot : Option MallocSite) :
    ∀ (c : List MallocSite) (e : MallocSite),
      e ∈ delete_linked_list boot c ↔ e ∈ c ∧ some e ≠ boot := by
  intro c
  induction c with
  | nil =>
    intro e
    simp [delete_linked_list]
  | cons p rest ih =>
    intro e
    by_cases hp : some p = boot
    · simp only [delete_linked_list, if_pos hp, ih, List.mem_cons]
      constructor
      · rintro ⟨hmem, hne⟩
        exact ⟨Or.inr hmem, hne⟩
      · rintro ⟨hmem | hmem, hne⟩
        · exact absurd (hmem ▸ hp) hne
        · exact ⟨hmem, hne⟩
    · simp only [delete_linked_list, if_neg hp, List.mem_cons, ih]
      constructor
      · rintro (heq | ⟨hmem, hne⟩)
        · exact ⟨Or.inl heq, heq ▸ hp⟩
        · exact ⟨Or.inr hmem, hne⟩
      · rintro ⟨heq | hmem, hne⟩
        · exact Or.inl heq
        · exact Or.inr ⟨hmem, hne⟩

/-- Membership in the accumulated freed-node list of the reset loop. -/
theorem resetFreed_mem (t : MallocSiteTable) :
    ∀ (l : List Nat) (e : MallocSite),
      e ∈ resetFreed t l ↔
        (∃ i ∈ l, e ∈ t.table i) ∧ some e ≠ t.hash_entry_allocation_site := by
  intro l
  induction l with
  | nil =>
    intro e
    simp [resetFreed]
  | cons i rest ih =>
    intro e
    simp only [resetFreed, List.mem_append, ih,
      delete_linked_list_mem t.hash_entry_allocation_site (t.table i) e]
    constructor
    · rintro (⟨hmem, hne⟩ | ⟨⟨j, hj, hmem⟩, hne⟩)
      · exact ⟨⟨i, by simp, hmem⟩, hne⟩
      · exact ⟨⟨j, by simp [hj], hmem⟩, hne⟩
    · rintro ⟨⟨j, hj, hmem⟩, hne⟩
      rcases List.mem_cons.mp hj with hj | hj
      · exact Or.inl ⟨hj ▸ hmem, hne⟩
      · exact Or.inr ⟨⟨j, hj, hmem⟩, hne⟩

/-- C9: `MallocSiteTable::reset` deletes the chain nodes of every bucket
except the statically pre-registered bootstrap entry: a node is freed if and
only if it is reachable from some bucket head and is not the
hash-entry-allocation bootstrap site; in particular the bootstrap entry
itself is never deleted. -/
theorem reset_frees_all_but_bootstrap (t : MallocSiteTable) :
    (∀ e : MallocSite,
        e ∈ (reset t).2 ↔
          (∃ i, i < t.table_size ∧ e ∈ t.table i) ∧
            some e ≠ t.hash_entry_allocation_site) ∧
      ∀ e : MallocSite, some e = t.hash_entry_allocation_site →
        e ∉ (reset t).2 := by
  have hmem : ∀ e : MallocSite,
      e ∈ (reset t).2 ↔
        (∃ i, i < t.table_size ∧ e ∈ t.table i) ∧
          some e ≠ t.hash_entry_allocation_site := by
    intro e
    show e ∈ resetFreed t (List.range t.table_size) ↔ _
    rw [resetFreed_mem t (List.range t.table_size) e]
    constructor
    · rintro ⟨⟨i, hi, hmem⟩, hne⟩
      exact ⟨⟨i, List.mem_range.mp hi, hmem⟩, hne⟩
    · rintro ⟨⟨i, hi, hmem⟩, hne⟩
      exact ⟨⟨i, List.mem_range.mpr hi, hmem⟩, hne⟩
  refine ⟨hmem, ?_⟩
  intro e hboot hin
  exact ((hmem e).mp hin).2 hboot

/-! ## G1BarrierSet: post-write card barrier -/

/-- A card already dirty makes the slow-path barrier a no-op. -/
theorem write_ref_field_post_slow_noop (s : G1State) (byte : Nat)
    (hd : s.ct byte = dirty_card_val) :
    write_ref_field_post_slow s byte = s := by
  unfold write_ref_field_post_slow
  rw [if_neg (by simp [hd])]

/-- C3: for a card not in the young state, the slow-path post-write barrier
enqueues the card at most once between drains: on an already-dirty card it
changes nothing and enqueues nothing, and on a non-dirty card it sets the
card dirty, appends exactly one enqueue of its address, touches no other
card, and a repeated call is then a no-op. -/
theorem write_ref_field_post_slow_dirties_once (s : G1State) (byte : Nat)
    (h : s.ct byte ≠ g1_young_card_val) :
    (s.ct byte = dirty_card_val → write_ref_field_post_slow s byte = s) ∧
      (s.ct byte ≠ dirty_card_val →
        (write_ref_field_post_slow s byte).ct byte = dirty_card_val ∧
          (write_ref_field_post_slow s byte).dcq = s.dcq ++ [byte] ∧
          (∀ c, c ≠ byte → (write_ref_field_post_slow s byte).ct c = s.ct c) ∧
          write_ref_field_post_slow (write_ref_field_post_slow s byte) byte =
            write_ref_field_post_slow s byte) := by
  refine ⟨write_ref_field_post_slow_noop s byte, ?_⟩
  intro hd
  have hstep : write_ref_field_post_slow s byte =
      ⟨fun j => if j = byte then dirty_card_val else s.ct j,
        s.dcq ++ [byte], s.satb_active, s.satbq⟩ := by
    unfold write_ref_field_post_slow
    rw [if_pos hd]
  refine ⟨by rw [hstep]; simp, by rw [hstep], ?_, ?_⟩
  · intro c hc
    rw [hstep]
    simp [hc]
  · apply write_ref_field_post_slow_noop
    rw [hstep]
    simp

/-! ## G1BarrierSet: pre-write array barrier -/

/-- The slot loop appends exactly the non-null slot values, in slot order,
to the SATB queue and touches nothing else. -/
theorem preWorkLoop_spec :
    ∀ (slots : List (Option Nat)) (s : G1State),
      preWorkLoop s slots =
        ⟨s.ct, s.dcq, s.satb_active, s.satbq ++ slots.filterMap id⟩ := by
  intro slots
  induction slots with
  | nil =>
    intro s
    cases s
    simp [preWorkLoop]
  | cons a rest ih =>
    intro s
    cases a with
    | none => simp [preWorkLoop, ih, List.filterMap_cons]
    | some v => simp [preWorkLoop, enqueue, ih, List.filterMap_cons]

/-- C6: the bulk pre-write array barrier enqueues nothing when the
destination is flagged uninitialized or the global SATB marking flag is
inactive; otherwise it appends to the SATB queue exactly the non-null
existing values of the slots, in ascending slot order, skipping null slots,
leaving the card table, the dirty card queue and the flag untouched. -/
theorem write_ref_array_pre_spec (s : G1State) (slots : List (Option Nat))
    (dest_uninitialized : Bool) :
    (dest_uninitialized = true → write_ref_array_pre s slots dest_uninitialized = s) ∧
      (s.satb_active = false → write_ref_array_pre s slots dest_uninitialized = s) ∧
      (dest_uninitialized = false → s.satb_active = true →
        (write_ref_array_pre s slots dest_uninitialized).satbq =
            s.satbq ++ slots.filterMap id ∧
          (write_ref_array_pre s slots dest_uninitialized).ct = s.ct ∧
          (write_ref_array_pre s slots dest_uninitialized).dcq = s.dcq ∧
          (write_ref_array_pre s slots dest_uninitialized).satb_active =
            s.satb_active) := by
  refine ⟨?_, ?_, ?_⟩
  · intro hdu
    unfold write_ref_array_pre
    rw [if_neg (by simp [hdu])]
  · intro hact
    unfold write_ref_array_pre write_ref_array_pre_work
    by_cases hdu : dest_uninitialized
    · rw [if_neg (by simp [hdu])]
    · rw [if_pos (by simp [hdu]), if_pos hact]
  · intro hdu hact
    unfold write_ref_array_pre write_ref_array_pre_work
    rw [if_pos (by simp [hdu]), if_neg (by simp [hact])]
    rw [preWorkLoop_spec slots s]
    exact ⟨rfl, rfl, rfl, rfl⟩

/-! ## G1BarrierSet: invalidate (C7) -/

/-- C7: `G1BarrierSet::invalidate` on an empty memory region is the
identity: it performs zero enqueues and leaves every card-table entry (and
all other barrier state) exactly as it was. -/
theorem invalidate_empty_region (s : G1State) (mr : MemRegion)
    (h : mr.word_size = 0) :
    invalidate s mr = s := by
  unfold invalidate
  rw [if_pos h]

/-! ## MallocSiteTable: AccessLock (C8) -/

/-- Acquiring shared locks from a non-negative counter always succeeds and
counts the holders. -/
theorem acquireK_spec :
    ∀ (k : Nat) (c : Int), 0 ≤ c → acquireK c k = (c + k, true) := by
  intro k
  induction k with
  | zero =>
    intro c hc
    simp [acquireK]
  | succ k ih =>
    intro c hc
    simp only [acquireK, sharedLock, if_pos hc]
    rw [ih (c + 1) (by omega)]
    simp only [Prod.mk.injEq, Bool.true_and, and_true]
    push_cast
    ring

/-- Releasing `k` shared locks subtracts `k` from the counter. -/
theorem releaseK_spec : ∀ (k : Nat) (c : Int), releaseK c k = c - k := by
  intro k
  induction k with
  | zero =>
    intro c
    simp [releaseK]
  | succ k ih =>
    intro c
    simp only [releaseK, sharedUnlock]
    rw [ih (c - 1)]
    push_cast
    ring

/-- C8: `AccessLock::exclusiveLock` cannot return while a previously
acquired shared lock is still held.  With `n` shared holders (each obtained
by a successful `sharedLock` from a zero counter), the CAS loop atomically
adds the negative magic offset, leaving the counter at `_MAGIC_ + n`; after
`k ≤ n` of the holders release, the counter reads `_MAGIC_ + (n - k)`, the
busy-wait's exit test `*_lock == _MAGIC_` holds exactly when `k = n` (all
shared locks released), and while the exclusive intent is pending every new
`sharedLock` attempt fails — exclusive and shared access are never held
simultaneously. -/
theorem exclusiveLock_waits_for_all_readers (n k : Nat) (hk : k ≤ n)
    (hn : (n : Int) < 2147483648) :
    acquireK 0 n = ((n : Int), true) ∧
      releaseK (exclusiveLockIntent (n : Int)) k =
        accessLockMagic + ((n : Int) - (k : Int)) ∧
      ((exclusiveLockSpinDone (releaseK (exclusiveLockIntent (n : Int)) k)
          = true) ↔ k = n) ∧
      (sharedLock (releaseK (exclusiveLockIntent (n : Int)) k)).2 = false := by
  have hrel : releaseK (exclusiveLockIntent (n : Int)) k =
      accessLockMagic + ((n : Int) - (k : Int)) := by
    rw [releaseK_spec k, exclusiveLockIntent]
    ring
  refine ⟨by simpa using acquireK_spec n 0 le_rfl, hrel, ?_, ?_⟩
  · rw [hrel]
    simp only [exclusiveLockSpinDone, accessLockMagic, decide_eq_true_eq]
    omega
  · rw [hrel]
    unfold sharedLock
    rw [if_neg (by simp only [accessLockMagic]; omega)]

/-! ## G1BarrierSet: invalidate (C5) -/

/-- `dirtyTargets` only reads the card values of the listed cards. -/
theorem dirtyTargets_congr (ct1 ct2 : Nat → Nat) :
    ∀ l : List Nat, (∀ x ∈ l, ct1 x = ct2 x) →
      dirtyTargets ct1 l = dirtyTargets ct2 l := by
  intro l
  induction l with
  | nil => intro _; rfl
  | cons c rest ih =>
    intro h
    have hc : ct1 c = ct2 c := h c (by simp)
    simp only [dirtyTargets, hc]
    rw [ih (fun x hx => h x (by simp [hx]))]

/-- Membership in `dirtyTargets`: the listed cards whose value is neither
young nor dirty. -/
theorem dirtyTargets_mem (ct : Nat → Nat) :
    ∀ (l : List Nat) (x : Nat),
      x ∈ dirtyTargets ct l ↔
        x ∈ l ∧ ct x ≠ g1_young_card_val ∧ ct x ≠ dirty_card_val := by
  intro l
  induction l with
  | nil =>
    intro x
    simp [dirtyTargets]
  | cons c rest ih =>
    intro x
    by_cases hc : ct c ≠ g1_young_card_val ∧ ct c ≠ dirty_card_val
    · simp only [dirtyTargets, if_pos hc, List.mem_cons, ih]
      constructor
      · rintro (heq | ⟨hm, hp⟩)
        · exact ⟨Or.inl heq, heq ▸ hc⟩
        · exact ⟨Or.inr hm, hp⟩
      · rintro ⟨heq | hm, hp⟩
        · exact Or.inl heq
        · exact Or.inr ⟨hm, hp⟩
    · simp only [dirtyTargets, if_neg hc, List.mem_cons, ih]
      constructor
      · rintro ⟨hm, hp⟩
        exact ⟨Or.inr hm, hp⟩
      · rintro ⟨heq | hm, hp⟩
        · exact absurd (heq ▸ hp) hc
        · exact ⟨hm, hp⟩

/-- `dirtyTargets` is a sublist of its input (hence inherits `Nodup`). -/
theorem dirtyTargets_sublist (ct : Nat → Nat) :
    ∀ l : List Nat, List.Sublist (dirtyTargets ct l) l := by
  intro l
  induction l with
  | nil => exact List.Sublist.refl []
  | cons c rest ih =>
    by_cases hc : ct c ≠ g1_young_card_val ∧ ct c ≠ dirty_card_val
    · simp only [dirtyTargets, if_pos hc]
      exact List.Sublist.cons₂ c ih
    · simp only [dirtyTargets, if_neg hc]
      exact List.Sublist.cons c ih

/-- Characterization of the dirtying loop over a duplicate-free card list:
the dirty card queue grows by exactly the `dirtyTargets` of the list, a
listed card that was neither young nor dirty ends dirty, every other card
keeps its value, and the SATB state is untouched. -/
theorem invLoop_spec :
    ∀ (l : List Nat) (s : G1State), l.Nodup →
      invLoop s l =
        ⟨fun c =>
            if c ∈ l ∧ s.ct c ≠ g1_young_card_val ∧ s.ct c ≠ dirty_card_val
            then dirty_card_val else s.ct c,
          s.dcq ++ dirtyTargets s.ct l, s.satb_active, s.satbq⟩ := by
  intro l
  induction l with
  | nil =>
    intro s _
    cases s
    simp [invLoop, dirtyTargets]
  | cons c rest ih =>
    intro s hnd
    obtain ⟨hcnot, hndr⟩ := List.nodup_cons.mp hnd
    by_cases hp : s.ct c ≠ g1_young_card_val ∧ s.ct c ≠ dirty_card_val
    · have hstep : invLoop s (c :: rest) =
          invLoop ⟨fun j => if j = c then dirty_card_val else s.ct j,
            s.dcq ++ [c], s.satb_active, s.satbq⟩ rest := by
        simp only [invLoop, if_pos hp]
      rw [hstep, ih _ hndr]
      have hct : ∀ x ∈ rest,
          (if x = c then dirty_card_val else s.ct x) = s.ct x := by
        intro x hx
        rw [if_neg (by rintro rfl; exact hcnot hx)]
      simp only [G1State.mk.injEq]
      refine ⟨?_, ?_, by simp, by simp⟩
      · funext x
        by_cases hx : x = c
        · subst hx
          rw [if_neg (by rintro ⟨hm, -⟩; exact hcnot hm)]
          rw [if_pos rfl, if_pos ⟨by simp, hp⟩]
        · simp only [if_neg hx]
          by_cases hm : x ∈ rest ∧ s.ct x ≠ g1_young_card_val ∧
              s.ct x ≠ dirty_card_val
          · rw [if_pos hm, if_pos ⟨List.mem_cons_of_mem c hm.1, hm.2⟩]
          · rw [if_neg hm,
              if_neg (by
                rintro ⟨hm1, hm2⟩
                rcases List.mem_cons.mp hm1 with h1 | h1
                · exact hx h1
                · exact hm ⟨h1, hm2⟩)]
      · rw [dirtyTargets_congr _ s.ct rest hct]
        simp only [dirtyTargets, if_pos hp]
        simp [List.append_assoc]
    · have hstep : invLoop s (c :: rest) = invLoop s rest := by
        simp only [invLoop, if_neg hp]
      rw [hstep, ih _ hndr]
      simp only [G1State.mk.injEq]
      refine ⟨?_, ?_, by simp, by simp⟩
      · funext x
        by_cases hm : x ∈ rest ∧ s.ct x ≠ g1_young_card_val ∧
            s.ct x ≠ dirty_card_val
        · rw [if_pos hm, if_pos ⟨List.mem_cons_of_mem c hm.1, hm.2⟩]
        · rw [if_neg hm, if_neg (by
            rintro ⟨hm1, hm2⟩
            rcases List.mem_cons.mp hm1 with h1 | h1
            · exact hp (h1 ▸ hm2)
            · exact hm ⟨h1, hm2⟩)]
      · simp only [dirtyTargets, if_neg hp]

/-- The initial-young skip removes a prefix of cards that all read young. -/
theorem skipYoung_decomp (ct : Nat → Nat) :
    ∀ l : List Nat, ∃ pre, l = pre ++ skipYoung ct l ∧
      ∀ x ∈ pre, ct x = g1_young_card_val := by
  intro l
  induction l with
  | nil => exact ⟨[], rfl, by simp⟩
  | cons c rest ih =>
    by_cases hc : ct c = g1_young_card_val
    · obtain ⟨pre, hdec, hpre⟩ := ih
      refine ⟨c :: pre, ?_, ?_⟩
      · simp only [skipYoung, if_pos hc, List.cons_append]
        rw [← hdec]
      · intro x hx
        rcases List.mem_cons.mp hx with h1 | h1
        · exact h1 ▸ hc
        · exact hpre x h1
    · refine ⟨[], ?_, by simp⟩
      simp only [skipYoung, if_neg hc, List.nil_append]

/-- C5: for a non-empty memory region, `G1BarrierSet::invalidate` dirties
and enqueues exactly once every covering card whose state is neither young
nor dirty, and leaves cards already young or dirty unchanged and
un-enqueued: the dirty card queue grows by a batch in which each dirtied
card appears exactly once and each skipped card not at all. -/
theorem invalidate_dirties_region (s : G1State) (mr : MemRegion)
    (hne : mr.word_size ≠ 0) :
    ∃ q : List Nat, (invalidate s mr).dcq = s.dcq ++ q ∧
      ∀ c ∈ List.range' mr.start mr.word_size,
        ((s.ct c ≠ g1_young_card_val ∧ s.ct c ≠ dirty_card_val) →
          (invalidate s mr).ct c = dirty_card_val ∧ q.count c = 1) ∧
        ((s.ct c = g1_young_card_val ∨ s.ct c = dirty_card_val) →
          (invalidate s mr).ct c = s.ct c ∧ q.count c = 0) := by
  have hl : (List.range' mr.start mr.word_size).Nodup :=
    List.nodup_range' mr.start mr.word_size
  obtain ⟨pre, hdec, hpre⟩ :=
    skipYoung_decomp s.ct (List.range' mr.start mr.word_size)
  have hremnd : (skipYoung s.ct (List.range' mr.start mr.word_size)).Nodup := by
    rw [hdec] at hl
    exact (List.nodup_append.mp hl).2.1
  have hinv : invalidate s mr =
      invLoop s (skipYoung s.ct (List.range' mr.start mr.word_size)) := by
    unfold invalidate
    rw [if_neg hne]
  rw [hinv, invLoop_spec _ s hremnd]
  refine ⟨dirtyTargets s.ct (skipYoung s.ct (List.range' mr.start mr.word_size)),
    rfl, ?_⟩
  intro c hc
  constructor
  · intro hp
    have hcrem : c ∈ skipYoung s.ct (List.range' mr.start mr.word_size) := by
      rw [hdec] at hc
      rcases List.mem_append.mp hc with h1 | h1
      · exact absurd (hpre c h1) hp.1
      · exact h1
    refine ⟨if_pos ⟨hcrem, hp⟩, ?_⟩
    refine List.count_eq_one_of_mem
      (List.Nodup.sublist (dirtyTargets_sublist s.ct _) hremnd) ?_
    exact (dirtyTargets_mem s.ct _ c).mpr ⟨hcrem, hp⟩
  · intro hp
    have hnp : ¬(s.ct c ≠ g1_young_card_val ∧ s.ct c ≠ dirty_card_val) := by
      rcases hp with h1 | h1 <;> simp [h1]
    refine ⟨if_neg (by rintro ⟨-, h2⟩; exact hnp h2), ?_⟩
    apply List.count_eq_zero_of_not_mem
    intro hmem
    exact hnp ((dirtyTargets_mem s.ct _ c).mp hmem).2

/-! ## Concrete witnesses -/

/-- A concrete empty three-bucket table used by the witnesses. -/
def wEmptyTable : MallocSiteTable := ⟨3, 2, fun k => k, fun _ => [], none⟩

/-- A concrete single-bucket table with bucket bound 2 whose bucket holds
exactly 2 distinct entries. -/
def wFullTable : MallocSiteTable :=
  ⟨1, 2, fun k => k, fun _ => [⟨1, 1⟩, ⟨2, 1⟩], none⟩

/-- A concrete single-bucket table with bucket bound 1 whose bucket holds
2 entries — one past the bound. -/
def wOverTable : MallocSiteTable :=
  ⟨1, 1, fun k => k, fun _ => [⟨1, 1⟩, ⟨2, 1⟩], none⟩

/-- A concrete all-clean barrier state used by the witnesses. -/
def wCleanState : G1State := ⟨fun _ => clean_card_val, [], false, []⟩

/-- A concrete non-empty region and a concrete empty region. -/
def wRegion : MemRegion := ⟨10, 3⟩

/-- The empty companion of `wRegion`. -/
def wEmptyRegion : MemRegion := ⟨10, 0⟩

/-- Witness for C1: on the concrete table, the first call creates the entry
and the repeated call returns the same site, indices and table. -/
theorem lookup_or_add_idempotent_witness :
    (2 : Nat) ≠ mtNone ∧
      lookup_or_add wEmptyTable 5 2 =
        (some (⟨5, 2⟩, 2, 0), (lookup_or_add wEmptyTable 5 2).2) ∧
      lookup_or_add (lookup_or_add wEmptyTable 5 2).2 5 2 =
        (some (⟨5, 2⟩, 2, 0), (lookup_or_add wEmptyTable 5 2).2) :=
  ⟨by decide, rfl,
    lookup_or_add_idempotent wEmptyTable 5 2 ⟨5, 2⟩ 2 0
      ((lookup_or_add wEmptyTable 5 2).2) (by decide) rfl⟩

/-- Counterexample to C2 as stated: the queried bucket of `wFullTable`
already holds `MAX_BUCKET_LENGTH` (here 2) distinct entries, none matching
`(5, 2)`, yet `lookup_or_add` does not return the null sentinel — it
appends a new entry at the tail, so refusal begins only at
`MAX_BUCKET_LENGTH + 1` chained entries. -/
theorem lookup_or_add_overflow_counterexample :
    (wFullTable.table (hash_to_index wFullTable (wFullTable.hash 5))).length =
        wFullTable.max_bucket_length ∧
      (∀ x ∈ wFullTable.table (hash_to_index wFullTable (wFullTable.hash 5)),
        x ≠ (⟨5, 2⟩ : MallocSite)) ∧
      (wFullTable.table (hash_to_index wFullTable (wFullTable.hash 5))).Nodup ∧
      (lookup_or_add wFullTable 5 2).1 = some (⟨5, 2⟩, 0, 2) ∧
      (lookup_or_add wFullTable 5 2).2.table 0 = [⟨1, 1⟩, ⟨2, 1⟩, ⟨5, 2⟩] := by
  decide

/-- Witness for C2 (amended) on the concrete over-full table. -/
theorem lookup_or_add_overflow_witness :
    (wOverTable.table (hash_to_index wOverTable (wOverTable.hash 5))).length =
        wOverTable.max_bucket_length + 1 ∧
      (∀ x ∈ wOverTable.table (hash_to_index wOverTable (wOverTable.hash 5)),
        x ≠ (⟨5, 2⟩ : MallocSite)) ∧
      ((lookup_or_add wOverTable 5 2).1 = none ∧
        ∀ j, (lookup_or_add wOverTable 5 2).2.table j = wOverTable.table j) :=
  ⟨by decide, by decide,
    lookup_or_add_overflow wOverTable 5 2 (by decide) (by decide)⟩

/-- Witness for C3 on a concrete clean card. -/
theorem write_ref_field_post_slow_dirties_once_witness :
    wCleanState.ct 4 ≠ g1_young_card_val ∧
      ((wCleanState.ct 4 = dirty_card_val →
          write_ref_field_post_slow wCleanState 4 = wCleanState) ∧
        (wCleanState.ct 4 ≠ dirty_card_val →
          (write_ref_field_post_slow wCleanState 4).ct 4 = dirty_card_val ∧
            (write_ref_field_post_slow wCleanState 4).dcq =
              wCleanState.dcq ++ [4] ∧
            (∀ c, c ≠ 4 →
              (write_ref_field_post_slow wCleanState 4).ct c =
                wCleanState.ct c) ∧
            write_ref_field_post_slow
                (write_ref_field_post_slow wCleanState 4) 4 =
              write_ref_field_post_slow wCleanState 4)) :=
  ⟨by decide,
    write_ref_field_post_slow_dirties_once wCleanState 4 (by decide)⟩

/-- Witness for C5 on a concrete three-card clean region. -/
theorem invalidate_dirties_region_witness :
    wRegion.word_size ≠ 0 ∧
      ∃ q : List Nat,
        (invalidate wCleanState wRegion).dcq = wCleanState.dcq ++ q ∧
          ∀ c ∈ List.range' wRegion.start wRegion.word_size,
            ((wCleanState.ct c ≠ g1_young_card_val ∧
                wCleanState.ct c ≠ dirty_card_val) →
              (invalidate wCleanState wRegion).ct c = dirty_card_val ∧
                q.count c = 1) ∧
            ((wCleanState.ct c = g1_young_card_val ∨
                wCleanState.ct c = dirty_card_val) →
              (invalidate wCleanState wRegion).ct c = wCleanState.ct c ∧
                q.count c = 0) :=
  ⟨by decide, invalidate_dirties_region wCleanState wRegion (by decide)⟩

/-- Witness for C7 on the concrete empty region. -/
theorem invalidate_empty_region_witness :
    wEmptyRegion.word_size = 0 ∧
      invalidate wCleanState wEmptyRegion = wCleanState :=
  ⟨rfl, invalidate_empty_region wCleanState wEmptyRegion rfl⟩

/-- Witness for C8 with three shared holders, two of them released. -/
theorem exclusiveLock_waits_for_all_readers_witness :
    (2 : Nat) ≤ 3 ∧ (((3 : Nat) : Int) < 2147483648 ∧
      (acquireK 0 3 = (((3 : Nat) : Int), true) ∧
        releaseK (exclusiveLockIntent ((3 : Nat) : Int)) 2 =
          accessLockMagic + (((3 : Nat) : Int) - ((2 : Nat) : Int)) ∧
        ((exclusiveLockSpinDone
            (releaseK (exclusiveLockIntent ((3 : Nat) : Int)) 2) = true) ↔
          (2 : Nat) = 3) ∧
        (sharedLock (releaseK (exclusiveLockIntent ((3 : Nat) : Int)) 2)).2 =
          false)) :=
  ⟨by decide, by decide,
    exclusiveLock_waits_for_all_readers 3 2 (by decide) (by decide)⟩

/-- Witness for C10 on the concrete table. -/
theorem lookup_or_add_malloc_site_roundtrip_witness :
    lookup_or_add wEmptyTable 7 3 =
        (some (⟨7, 3⟩, 1, 0), (lookup_or_add wEmptyTable 7 3).2) ∧
      malloc_site (lookup_or_add wEmptyTable 7 3).2 1 0 = some ⟨7, 3⟩ :=
  ⟨rfl,
    lookup_or_add_malloc_site_roundtrip wEmptyTable 7 3 ⟨7, 3⟩ 1 0
      ((lookup_or_add wEmptyTable 7 3).2) rfl⟩
